import Mathlib

/-!
Verification development for the avocado choropleth pipeline
(`aguacate_mapas.py`): the geo-join, the logarithmic color scale,
the legend-label formatting, the aggregation modes, the image
compositor and the intermediate-file lifecycle.

Each definition is a shallow embedding of the corresponding piece of
the Python source; theorems below settle the specification claims.
-/

namespace Aguacate

/-! ## Geo-join (plot_mapa_estatal lines 84-94, plot_mapa_municipal lines 390-400)

The aggregated DataFrame indexed by entity name (resp. municipal key)
is modelled as an association list from key to the `log` column value.
`df.loc[geo, "log"]` wrapped in try/except is modelled as `dfLoc`,
a total lookup returning `none` when the key is absent. -/

/-- Model of `df.loc[geo, "log"]` under the surrounding try/except:
the first row whose key equals `geo`, or `none` when no row matches
(the `except` branch appends `None`). -/
def dfLoc (df : List (String × ℚ)) (geo : String) : Option ℚ :=
  (df.find? (fun p => p.1 == geo)).map Prod.snd

/-- Model of the `ubicaciones` list: one entry per GeoJSON feature, in
catalog iteration order (the loop appends `geo` unconditionally). -/
def ubicacionesDe (features : List String) : List String :=
  features

/-- Model of the `valores` list: for each feature the looked-up `log`
value, or `None` when the lookup raises. -/
def valoresDe (features : List String) (df : List (String × ℚ)) : List (Option ℚ) :=
  features.map (fun geo => dfLoc df geo)

/-- The JoinedLayer of the spec: the parallel lists `ubicaciones` and
`valores` paired positionally, as the Choropleth trace consumes them. -/
def joinedLayer (features : List String) (df : List (String × ℚ)) :
    List (String × Option ℚ) :=
  (ubicacionesDe features).zip (valoresDe features df)

/-! ## Compositor (plot_mapa_estatal lines 296-310)

The tail of `plot_mapa_estatal` pastes the map (`0.png`) and the
tables (`1.png`) onto a fresh canvas.  Note the source hard-codes
`result_width = 1280`; only `result_height` is computed from the
inputs. -/

/-- Raster buffer with declared pixel dimensions. -/
structure Imagen where
  width : ℕ
  height : ℕ
deriving DecidableEq

/-- Size of the canvas built by `Image.new`: the source sets
`result_width = 1280` (a constant, not a function of the inputs) and
`result_height = image1.height + image2.height`. -/
def componer (image1 image2 : Imagen) : Imagen :=
  { width := 1280, height := image1.height + image2.height }

/-- Paste offset of the first buffer: `box=(0, 0)`. -/
def pegado1 : ℕ × ℕ := (0, 0)

/-- Paste offset of the second buffer: `box=(0, image1.height)`. -/
def pegado2 (image1 : Imagen) : ℕ × ℕ := (0, image1.height)

/-! ## Intermediate-file lifecycle (plot_mapa_estatal lines 199-310)

The tail of `plot_mapa_estatal` is a straight-line script of
filesystem effects with no try/finally.  We model the filesystem
state reached when the script runs to completion, or when some step
raises and aborts the rest.  Steps: write `./0.png`, write `./1.png`,
open both, save the composite, then `os.remove` each intermediate. -/

/-- Which files exist: the two intermediates and the final artifact. -/
structure EstadoFS where
  png0 : Bool
  png1 : Bool
  resultado : Bool
deriving DecidableEq

/-- The filesystem steps of the script tail, in program order. -/
inductive Paso where
  | escribir0
  | escribir1
  | abrir0
  | abrir1
  | guardar
  | borrar0
  | borrar1
deriving DecidableEq

/-- Effect of one step on the filesystem state.  Opens read files
without changing the state. -/
def efecto (s : EstadoFS) : Paso → EstadoFS
  | .escribir0 => { s with png0 := true }
  | .escribir1 => { s with png1 := true }
  | .abrir0 => s
  | .abrir1 => s
  | .guardar => { s with resultado := true }
  | .borrar0 => { s with png0 := false }
  | .borrar1 => { s with png1 := false }

/-- The script tail of `plot_mapa_estatal`, in source order:
`fig.write_image("./0.png")`, `fig.write_image("./1.png")`,
`Image.open` twice, `result.save(...)`, `os.remove("./0.png")`,
`os.remove("./1.png")`. -/
def guion : List Paso :=
  [.escribir0, .escribir1, .abrir0, .abrir1, .guardar, .borrar0, .borrar1]

/-- State when the script starts: no files written yet. -/
def inicialFS : EstadoFS := ⟨false, false, false⟩

/-- Final filesystem state: with `fallo = none` every step runs; with
`fallo = some k` step `k` raises, so exactly the steps before `k`
run (there is no handler, the exception aborts the rest). -/
def ejecutar (fallo : Option ℕ) : EstadoFS :=
  (match fallo with
   | none => guion
   | some k => guion.take k).foldl efecto inicialFS

/-! ## Legend labels (plot_mapa_estatal lines 69-78, plot_mapa_municipal lines 371-380)

Python's `f"{x:,.1f}"` / `f"{x:,.0f}"` round half-to-even and insert
thousands separators in the integer part.  The linear tick value
`10 ** item` is idealized as a rational; the label functions below
are defined for the non-negative values that arise there. -/

/-- Rounding used by Python's fixed-point format: nearest integer,
ties to even.  For `q` with floor `f`, the fractional part is
`r / den` where `r = num - f * den`, so comparing it against `1/2`
is comparing `2 * r` against `den`. -/
def roundHalfEven (q : ℚ) : ℤ :=
  let f : ℤ := q.floor
  let r : ℤ := q.num - f * q.den
  if 2 * r < (q.den : ℤ) then f
  else if (q.den : ℤ) < 2 * r then f + 1
  else if f % 2 = 0 then f else f + 1

/-- Walk the reversed digit list emitting a separator before every
fourth, seventh, ... digit; the counter is the number of digits
still to emit before the next separator. -/
def agruparComasAux : List Char → ℕ → List Char
  | [], _ => []
  | a :: resto, 0 => ',' :: a :: agruparComasAux resto 2
  | a :: resto, k + 1 => a :: agruparComasAux resto k

/-- Insert a thousands separator after every third character of the
reversed digit list of the integer part. -/
def agruparComas (l : List Char) : List Char :=
  agruparComasAux l 3

/-- Decimal rendering of a natural number with thousands separators,
as Python's `,` format flag produces for the integer part. -/
def formatoEntero (n : ℕ) : String :=
  String.mk ((agruparComas (Nat.toDigits 10 n).reverse).reverse)

/-- Model of `f"{q:,.0f}"` for non-negative `q`: round half-to-even
to an integer and render it with separators. -/
def formato0f (q : ℚ) : String :=
  formatoEntero (roundHalfEven q).toNat

/-- Model of `f"{q:,.1f}"` for non-negative `q`: round `q * 10` half
to even, then split integer part and the single decimal digit. -/
def formato1f (q : ℚ) : String :=
  let n : ℕ := (roundHalfEven (q * 10)).toNat
  formatoEntero (n / 10) ++ "." ++ formatoEntero (n % 10)

/-- The abbreviation rule of the legend-label loop: `valor_original`
is the linear tick value `10 ** item`; at or above one million the
label is the value in millions with one decimal and a trailing `M`,
at or above one thousand the value in thousands rounded to an
integer with a trailing `k`, otherwise the rounded integer. -/
def abreviar (valor_original : ℚ) : String :=
  if valor_original ≥ 1000000 then formato1f (valor_original / 1000000) ++ "M"
  else if valor_original ≥ 1000 then formato0f (valor_original / 1000) ++ "k"
  else formato0f valor_original

/-! ## Scale builder (plot_mapa_estatal lines 61-65, plot_mapa_municipal lines 363-367)

`min_val = df["log"].min()`, `max_val = df["log"].max()`, and
`marcas = np.linspace(min_val, max_val, 11)`.  Floats are idealized
over a linear ordered field so the same definitions serve both the
real-valued theorems and concrete evaluation. -/

/-- Minimum of a column, as `Series.min` computes it on a non-empty
series (the empty case yields an arbitrary junk value, standing in
for pandas' NaN, and is excluded by the theorems' hypotheses). -/
def listMin {α : Type} [LinearOrderedField α] : List α → α
  | [] => 0
  | [x] => x
  | x :: y :: resto => min x (listMin (y :: resto))

/-- Maximum of a column, as `Series.max` computes it on a non-empty
series. -/
def listMax {α : Type} [LinearOrderedField α] : List α → α
  | [] => 0
  | [x] => x
  | x :: y :: resto => max x (listMax (y :: resto))

/-- A built color scale: the domain bounds (log space) and the tick
positions `marcas`. -/
structure Escala (α : Type) where
  min_val : α
  max_val : α
  marcas : List α

/-- Scale construction from the `log` column: `min_val`, `max_val`
and `np.linspace(min_val, max_val, 11)`, whose `i`-th entry is
`min_val + i * (max_val - min_val) / 10`. -/
def escalaDe {α : Type} [LinearOrderedField α] (logs : List α) : Escala α :=
  { min_val := listMin logs
    max_val := listMax logs
    marcas := (List.range 11).map
      (fun i : ℕ => listMin logs + (i : α) * (listMax logs - listMin logs) / 10) }

/-- Pipeline composition for the scale: the `log` column is
`np.log10` of the strictly positive volume column (`Real.logb 10`),
and the scale is built from that column.  Noncomputable only because
`ℝ` is; the generic `escalaDe` is executable. -/
noncomputable def escalaDeValores (values : List ℝ) : Escala ℝ :=
  escalaDe (values.map (Real.logb 10))

/-! ## Aggregator, sum mode (plot_mapa_estatal line 39, plot_mapa_municipal line 338)

`df.groupby(key).sum(numeric_only=True)` produces one row per
distinct key, the rows indexed by the key in ascending order (pandas
sorts group keys), each numeric cell the sum over the rows sharing
the key.  A DataFrame with a key column and one numeric column is a
list of pairs. -/

/-- Model of `df.groupby(key).sum(numeric_only=True)` on a
two-column frame: the distinct keys in ascending order, each paired
with the sum of the numeric column over its group. -/
def groupbySum (renglones : List (String × ℚ)) : List (String × ℚ) :=
  (List.insertionSort (fun a b => a ≤ b) (renglones.map Prod.fst).dedup).map
    (fun k => (k, ((renglones.filter (fun p => p.1 == k)).map Prod.snd).sum))

/-- Municipal pipeline, lines 338-341: group by the municipal key,
then `df = df[df["Volumenproduccion"] != 0]` removes the keys whose
aggregated volume is zero, before `np.log10` is applied. -/
def municipioVolumenes (renglones : List (String × ℚ)) : List (String × ℚ) :=
  (groupbySum renglones).filter (fun p => p.2 != 0)

/-! ## Aggregator, max mode (mapa_exportaciones lines 578-586)

Rows of `inegi_exportaciones.csv` after the year/type filters carry
a destination-country key `PAIS_O_D` (null on the national-total
rows) and the numeric columns `CANTIDAD` and `VAL_MNX`.
`df["PAIS_O_D"].fillna("TOTAL")` then
`df.groupby("PAIS_O_D").max(numeric_only=True)`. -/

/-- One filtered row of the INEGI export dataset. -/
structure RenglonExportacion where
  pais : Option String
  cantidad : ℚ
  val_mnx : ℚ
deriving DecidableEq

/-- Grouping key after `fillna`: the country code, or the sentinel
`"TOTAL"` when the row has no country code. -/
def llaveDestino (r : RenglonExportacion) : String :=
  r.pais.getD "TOTAL"

/-- Model of `groupby("PAIS_O_D").max(numeric_only=True)` after the
`fillna`: distinct keys in ascending order, each numeric column
reduced independently by maximum over the group's rows. -/
def groupbyMax (renglones : List RenglonExportacion) : List (String × ℚ × ℚ) :=
  (List.insertionSort (fun a b => a ≤ b) (renglones.map llaveDestino).dedup).map
    (fun k =>
      (k,
        listMax ((renglones.filter (fun r => llaveDestino r == k)).map
          RenglonExportacion.cantidad),
        listMax ((renglones.filter (fun r => llaveDestino r == k)).map
          RenglonExportacion.val_mnx)))

/-! ## Helper lemmas -/

theorem mkRat_eq_div_cast (n : ℤ) (d : ℕ) : mkRat n d = (n : ℚ) / (d : ℚ) := by
  rw [Rat.mkRat_eq_divInt, Rat.divInt_eq_div]
  norm_cast

theorem listMin_le {α : Type} [LinearOrderedField α] {l : List α} {x : α} (hx : x ∈ l) :
    listMin l ≤ x := by
  induction l with
  | nil => simp at hx
  | cons a resto ih =>
    rcases List.mem_cons.mp hx with rfl | hx2
    · cases resto with
      | nil => simp [listMin]
      | cons b resto2 =>
        simp only [listMin]
        exact min_le_left _ _
    · cases resto with
      | nil => simp at hx2
      | cons b resto2 =>
        simp only [listMin]
        exact le_trans (min_le_right _ _) (ih hx2)

theorem le_listMax {α : Type} [LinearOrderedField α] {l : List α} {x : α} (hx : x ∈ l) :
    x ≤ listMax l := by
  induction l with
  | nil => simp at hx
  | cons a resto ih =>
    rcases List.mem_cons.mp hx with rfl | hx2
    · cases resto with
      | nil => simp [listMax]
      | cons b resto2 =>
        simp only [listMax]
        exact le_max_left _ _
    · cases resto with
      | nil => simp at hx2
      | cons b resto2 =>
        simp only [listMax]
        exact le_trans (ih hx2) (le_max_right _ _)

theorem listMin_mem {α : Type} [LinearOrderedField α] {l : List α} (h : l ≠ []) :
    listMin l ∈ l := by
  induction l with
  | nil => exact absurd rfl h
  | cons a resto ih =>
    cases resto with
    | nil => simp [listMin]
    | cons b resto2 =>
      simp only [listMin]
      rcases le_total a (listMin (b :: resto2)) with h2 | h2
      · simp [min_eq_left h2]
      · rw [min_eq_right h2]
        exact List.mem_cons_of_mem _ (ih (by simp))

theorem listMax_mem {α : Type} [LinearOrderedField α] {l : List α} (h : l ≠ []) :
    listMax l ∈ l := by
  induction l with
  | nil => exact absurd rfl h
  | cons a resto ih =>
    cases resto with
    | nil => simp [listMax]
    | cons b resto2 =>
      simp only [listMax]
      rcases le_total a (listMax (b :: resto2)) with h2 | h2
      · rw [max_eq_right h2]
        exact List.mem_cons_of_mem _ (ih (by simp))
      · simp [max_eq_left h2]

theorem listMin_le_listMax {α : Type} [LinearOrderedField α] (l : List α) :
    listMin l ≤ listMax l := by
  cases l with
  | nil => simp [listMin, listMax]
  | cons a resto =>
    cases resto with
    | nil => simp [listMin, listMax]
    | cons b resto2 =>
      simp only [listMin, listMax]
      exact le_trans (min_le_left _ _) (le_max_left _ _)

theorem logb_min_comm {x y : ℝ} (hx : 0 < x) (hy : 0 < y) :
    Real.logb 10 (min x y) = min (Real.logb 10 x) (Real.logb 10 y) := by
  rcases le_total x y with h | h
  · rw [min_eq_left h, min_eq_left (Real.logb_le_logb_of_le (by norm_num) hx h)]
  · rw [min_eq_right h, min_eq_right (Real.logb_le_logb_of_le (by norm_num) hy h)]

theorem logb_max_comm {x y : ℝ} (hx : 0 < x) (hy : 0 < y) :
    Real.logb 10 (max x y) = max (Real.logb 10 x) (Real.logb 10 y) := by
  rcases le_total x y with h | h
  · rw [max_eq_right h, max_eq_right (Real.logb_le_logb_of_le (by norm_num) hx h)]
  · rw [max_eq_left h, max_eq_left (Real.logb_le_logb_of_le (by norm_num) hy h)]

theorem logb_listMin : ∀ {l : List ℝ}, l ≠ [] → (∀ x ∈ l, 0 < x) →
    Real.logb 10 (listMin l) = listMin (l.map (Real.logb 10))
  | [], h, _ => absurd rfl h
  | [x], _, _ => by simp [listMin]
  | a :: b :: resto, _, hpos => by
      have hres : (b :: resto : List ℝ) ≠ [] := by simp
      have hposr : ∀ x ∈ b :: resto, 0 < x := fun x hx => hpos x (List.mem_cons_of_mem _ hx)
      have hmin_pos : 0 < listMin (b :: resto) := hposr _ (listMin_mem hres)
      have ha : 0 < a := hpos a (List.mem_cons_self _ _)
      simp only [List.map_cons, listMin]
      rw [← List.map_cons, logb_min_comm ha hmin_pos, logb_listMin hres hposr]

theorem logb_listMax : ∀ {l : List ℝ}, l ≠ [] → (∀ x ∈ l, 0 < x) →
    Real.logb 10 (listMax l) = listMax (l.map (Real.logb 10))
  | [], h, _ => absurd rfl h
  | [x], _, _ => by simp [listMax]
  | a :: b :: resto, _, hpos => by
      have hres : (b :: resto : List ℝ) ≠ [] := by simp
      have hposr : ∀ x ∈ b :: resto, 0 < x := fun x hx => hpos x (List.mem_cons_of_mem _ hx)
      have hmax_pos : 0 < listMax (b :: resto) := hposr _ (listMax_mem hres)
      have ha : 0 < a := hpos a (List.mem_cons_self _ _)
      simp only [List.map_cons, listMax]
      rw [← List.map_cons, logb_max_comm ha hmax_pos, logb_listMax hres hposr]

theorem escalaDe_marcas_length {α : Type} [LinearOrderedField α] (logs : List α) :
    (escalaDe logs).marcas.length = 11 := by
  simp [escalaDe]

theorem escalaDe_marcas_getElem {α : Type} [LinearOrderedField α] (logs : List α) {i : ℕ}
    (hi : i < 11) :
    (escalaDe logs).marcas[i]? =
      some (listMin logs + (i : α) * (listMax logs - listMin logs) / 10) := by
  simp [escalaDe, List.getElem?_map, List.getElem?_range, hi]

theorem escalaDe_marcas_bounds {α : Type} [LinearOrderedField α] (logs : List α) {t : α}
    (ht : t ∈ (escalaDe logs).marcas) :
    listMin logs ≤ t ∧ t ≤ listMax logs := by
  obtain ⟨i, hi, rfl⟩ := List.mem_map.mp ht
  have hir : i < 11 := List.mem_range.mp hi
  have h10 : (i : α) ≤ 10 := by exact_mod_cast Nat.lt_succ_iff.mp hir
  have hMm : (0 : α) ≤ listMax logs - listMin logs :=
    sub_nonneg.mpr (listMin_le_listMax logs)
  constructor
  · have hnn : (0 : α) ≤ (i : α) * (listMax logs - listMin logs) / 10 :=
      div_nonneg (mul_nonneg (Nat.cast_nonneg i) hMm) (by norm_num)
    linarith
  · have h3 : (i : α) * (listMax logs - listMin logs) ≤
        (listMax logs - listMin logs) * 10 := by
      calc (i : α) * (listMax logs - listMin logs)
          ≤ 10 * (listMax logs - listMin logs) := mul_le_mul_of_nonneg_right h10 hMm
        _ = (listMax logs - listMin logs) * 10 := by ring
    have h2 : (i : α) * (listMax logs - listMin logs) / 10 ≤
        listMax logs - listMin logs := (div_le_iff₀ (by norm_num)).mpr h3
    linarith

theorem escalaDe_marcas_sorted {α : Type} [LinearOrderedField α] (logs : List α) :
    (escalaDe logs).marcas.Sorted (· ≤ ·) := by
  have hMm : (0 : α) ≤ (listMax logs - listMin logs) / 10 :=
    div_nonneg (sub_nonneg.mpr (listMin_le_listMax logs)) (by norm_num)
  refine List.Pairwise.map _ ?_ (List.pairwise_lt_range 11)
  intro a b hab
  have hab2 : (a : α) ≤ (b : α) := by exact_mod_cast le_of_lt hab
  have h := mul_le_mul_of_nonneg_right hab2 hMm
  rw [mul_div_assoc, mul_div_assoc]
  exact add_le_add_left h _

theorem escalaDe_marcas_sorted_lt {α : Type} [LinearOrderedField α] (logs : List α)
    (hlt : listMin logs < listMax logs) :
    (escalaDe logs).marcas.Sorted (· < ·) := by
  have hMm : (0 : α) < (listMax logs - listMin logs) / 10 :=
    div_pos (sub_pos.mpr hlt) (by norm_num)
  refine List.Pairwise.map _ ?_ (List.pairwise_lt_range 11)
  intro a b hab
  have hab2 : (a : α) < (b : α) := by exact_mod_cast hab
  have h := mul_lt_mul_of_pos_right hab2 hMm
  rw [mul_div_assoc, mul_div_assoc]
  exact add_lt_add_left h _

theorem joinedLayer_eq_map (features : List String) (df : List (String × ℚ)) :
    joinedLayer features df = features.map (fun geo => (geo, dfLoc df geo)) := by
  induction features with
  | nil => rfl
  | cons a resto ih =>
    simp only [joinedLayer, ubicacionesDe, valoresDe, List.map_cons, List.zip_cons_cons]
      at ih ⊢
    rw [ih]

/-! ## Claim theorems -/

/-- C1: for every geometry catalog and every aggregated-data mapping
the geo-join produces one value per catalog feature in catalog
iteration order (no feature reordered, filtered or deduplicated);
each entry pairs the feature's identifier with the value looked up
under it, `none` when the identifier is absent from the mapping (the
lookup is a total function, so a failed lookup cannot raise); and
the null-join scenario `["A","B","C"]` with data only for `"A"` and
`"C"` yields `[("A", v_a), ("B", null), ("C", v_c)]` in that order. -/
theorem geo_join_correcto (features : List String) (df : List (String × ℚ)) :
    (joinedLayer features df).length = features.length ∧
    (joinedLayer features df).map Prod.fst = features ∧
    (∀ i : ℕ, (joinedLayer features df)[i]? =
      (features[i]?).map (fun geo => (geo, dfLoc df geo))) ∧
    (∀ geo, geo ∉ df.map Prod.fst → dfLoc df geo = none) ∧
    (∀ va vc : ℚ, joinedLayer ["A", "B", "C"] [("A", va), ("C", vc)] =
      [("A", some va), ("B", none), ("C", some vc)]) := by
  refine ⟨?_, ?_, ?_, ?_, ?_⟩
  · rw [joinedLayer_eq_map]
    simp
  · rw [joinedLayer_eq_map]
    simp [Function.comp_def]
  · intro i
    rw [joinedLayer_eq_map]
    simp [List.getElem?_map]
  · intro geo hgeo
    unfold dfLoc
    rw [List.find?_eq_none.mpr, Option.map_none']
    intro p hp
    simp only [beq_iff_eq]
    intro hEq
    exact hgeo (hEq ▸ List.mem_map_of_mem Prod.fst hp)
  · intro va vc
    rw [joinedLayer_eq_map]
    simp [dfLoc]

/-- C1 witness: the join theorem applied to the concrete three-feature
catalog with data only for `"A"` and `"C"`. -/
theorem geo_join_correcto_testigo :
    dfLoc [("A", (7 : ℚ)), ("C", 9)] "B" = none ∧
    joinedLayer ["A", "B", "C"] [("A", (7 : ℚ)), ("C", 9)] =
      [("A", some 7), ("B", none), ("C", some 9)] := by
  have h := geo_join_correcto ["A", "B", "C"] [("A", (7 : ℚ)), ("C", 9)]
  exact ⟨h.2.2.2.1 "B" (by decide), h.2.2.2.2 7 9⟩

/-- C5 counterexample: with a three-feature catalog and an aggregated
table matching none of the features, the layer is still produced —
full length, every value null — instead of any construction failure;
no `EmptyDomainError` (nor any other error path) exists in the join
or scale code, which computes the domain from the aggregated table
before the join. -/
theorem todo_nulo_no_falla :
    (joinedLayer ["A", "B", "C"] ([] : List (String × ℚ))).length = 3 ∧
    joinedLayer ["A", "B", "C"] ([] : List (String × ℚ)) =
      [("A", none), ("B", none), ("C", none)] := by
  decide

/-- C5 amended: when every feature's lookup misses, constructing the
layer does not fail — it returns the full-length all-null layer. -/
theorem union_todo_nulo (features : List String) (df : List (String × ℚ))
    (h : ∀ geo ∈ features, dfLoc df geo = none) :
    joinedLayer features df = features.map (fun geo => (geo, (none : Option ℚ))) := by
  rw [joinedLayer_eq_map]
  exact List.map_congr_left (fun geo hg => by rw [h geo hg])

/-- C5 witness: the amended theorem applied to the all-null concrete
scenario. -/
theorem union_todo_nulo_testigo :
    (∀ geo ∈ ["A", "B", "C"], dfLoc ([] : List (String × ℚ)) geo = none) ∧
    joinedLayer ["A", "B", "C"] ([] : List (String × ℚ)) =
      ["A", "B", "C"].map (fun geo => (geo, (none : Option ℚ))) :=
  ⟨by decide, union_todo_nulo _ _ (by decide)⟩

/-- C4 counterexample: the composite width is the constant 1280, not
the maximum of the input widths — inputs 100×720 and 200×560 compose
to width 1280, not `max 100 200`. -/
theorem componer_no_max :
    componer ⟨100, 720⟩ ⟨200, 560⟩ ≠
      ⟨max (Imagen.mk 100 720).width (Imagen.mk 200 560).width,
        (Imagen.mk 100 720).height + (Imagen.mk 200 560).height⟩ := by
  decide

/-- C4 amended: the composite canvas has the hard-coded width 1280 —
which equals the maximum input width whenever both inputs are 1280
wide, as both rendered buffers in this pipeline are — and height the
sum of the input heights, the first buffer pasted at offset 0 and the
second at the first buffer's height. -/
theorem componer_medidas (image1 image2 : Imagen) (h1 : image1.width = 1280)
    (h2 : image2.width = 1280) :
    componer image1 image2 =
      ⟨max image1.width image2.width, image1.height + image2.height⟩ ∧
    pegado1 = (0, 0) ∧ pegado2 image1 = (0, image1.height) := by
  refine ⟨?_, rfl, rfl⟩
  simp [componer, h1, h2]

/-- C4 witness: buffers 1280×720 and 1280×560 compose to 1280×1280,
the second pasted at vertical offset 720. -/
theorem componer_medidas_testigo :
    componer ⟨1280, 720⟩ ⟨1280, 560⟩ = ⟨1280, 1280⟩ ∧
    pegado2 ⟨1280, 720⟩ = (0, 720) := by
  have h := componer_medidas ⟨1280, 720⟩ ⟨1280, 560⟩ rfl rfl
  exact ⟨h.1.trans (by decide), h.2.2⟩

/-- C6 counterexample: if the script raises at step 4 (`result.save`),
after both intermediates were created, the run ends with `./0.png`
and `./1.png` still on disk — there is no cleanup on error paths. -/
theorem intermedios_sobreviven_en_error :
    (ejecutar (some 4)).png0 = true ∧ (ejecutar (some 4)).png1 = true := by
  decide

/-- C6 amended: on the successful path the two intermediate rasters
are deleted once compositing completes (and the composite exists);
but on every error path after their creation — any step from opening
the rasters through the second remove raising — at least `./0.png`
survives, and before the removes both survive: there is no
try/finally protecting the intermediates. -/
theorem limpieza_intermedios (k : ℕ) (h2 : 2 ≤ k) (h5 : k ≤ 5) :
    (ejecutar none).png0 = false ∧ (ejecutar none).png1 = false ∧
    (ejecutar none).resultado = true ∧
    (ejecutar (some k)).png0 = true ∧ (ejecutar (some k)).png1 = true := by
  refine ⟨by decide, by decide, by decide, ?_, ?_⟩ <;> interval_cases k <;> decide

/-- C6 witness: the cleanup theorem applied at failure step 3 (the
second `Image.open`). -/
theorem limpieza_intermedios_testigo :
    (ejecutar none).png0 = false ∧ (ejecutar none).png1 = false ∧
    (ejecutar (some 3)).png0 = true ∧ (ejecutar (some 3)).png1 = true := by
  have h := limpieza_intermedios 3 (by norm_num) (by norm_num)
  exact ⟨h.1, h.2.1, h.2.2.2.1, h.2.2.2.2⟩

/-- C3: the legend label of the linear tick value `v = 10 ** t` is
`v/1e6` with one decimal and suffix `M` for `v ≥ 1,000,000`, `v/1e3`
rounded to an integer with suffix `k` for `v ≥ 1,000`, and the
rounded integer otherwise; in particular 999 → "999", 1500 → "2k"
(Python's banker's rounding of 1.5), 2500000 → "2.5M", and the
boundary values 1000000 → "1.0M" and 1000 → "1k". -/
theorem etiquetas_abreviadas :
    abreviar 999 = "999" ∧ abreviar 1500 = "2k" ∧ abreviar 2500000 = "2.5M" ∧
    abreviar 1000000 = "1.0M" ∧ abreviar 1000 = "1k" := by
  refine ⟨?_, ?_, ?_, ?_, ?_⟩
  · rw [abreviar, if_neg (by norm_num), if_neg (by norm_num)]
    decide
  · rw [abreviar, if_neg (by norm_num), if_pos (by norm_num)]
    have h : (1500 : ℚ) / 1000 = mkRat 3 2 := by
      rw [mkRat_eq_div_cast]
      norm_num
    rw [h]
    decide
  · rw [abreviar, if_pos (by norm_num)]
    have h : (2500000 : ℚ) / 1000000 = mkRat 5 2 := by
      rw [mkRat_eq_div_cast]
      norm_num
    have h10 : (mkRat 5 2 : ℚ) * 10 = mkRat 25 1 := by
      rw [mkRat_eq_div_cast, mkRat_eq_div_cast]
      norm_num
    rw [h, formato1f, h10]
    decide
  · rw [abreviar, if_pos (by norm_num)]
    have h : (1000000 : ℚ) / 1000000 = mkRat 1 1 := by
      rw [mkRat_eq_div_cast]
      norm_num
    have h10 : (mkRat 1 1 : ℚ) * 10 = mkRat 10 1 := by
      rw [mkRat_eq_div_cast, mkRat_eq_div_cast]
      norm_num
    rw [h, formato1f, h10]
    decide
  · rw [abreviar, if_neg (by norm_num), if_pos (by norm_num)]
    have h : (1000 : ℚ) / 1000 = mkRat 1 1 := by
      rw [mkRat_eq_div_cast]
      norm_num
    rw [h]
    decide

/-- C2: for every non-empty list of strictly positive values, the
scale builder sets `min_val` to `log10` of the minimum value and
`max_val` to `log10` of the maximum value, and `marcas` holds
exactly 11 tick positions linearly interpolated from `min_val`
(index 0) to `max_val` (index 10) inclusive; consequently the ticks
are non-decreasing and each lies within `[min_val, max_val]`. -/
theorem escala_logaritmica (values : List ℝ) (hne : values ≠ [])
    (hpos : ∀ x ∈ values, 0 < x) :
    (escalaDeValores values).min_val = Real.logb 10 (listMin values) ∧
    (escalaDeValores values).max_val = Real.logb 10 (listMax values) ∧
    (escalaDeValores values).marcas.length = 11 ∧
    (escalaDeValores values).marcas[0]? = some (escalaDeValores values).min_val ∧
    (escalaDeValores values).marcas[10]? = some (escalaDeValores values).max_val ∧
    (∀ i : ℕ, i < 11 → (escalaDeValores values).marcas[i]? =
      some ((escalaDeValores values).min_val +
        (i : ℝ) * ((escalaDeValores values).max_val -
          (escalaDeValores values).min_val) / 10)) ∧
    (escalaDeValores values).marcas.Sorted (· ≤ ·) ∧
    ∀ t ∈ (escalaDeValores values).marcas,
      (escalaDeValores values).min_val ≤ t ∧ t ≤ (escalaDeValores values).max_val := by
  have hmin := logb_listMin hne hpos
  have hmax := logb_listMax hne hpos
  refine ⟨hmin.symm, hmax.symm, escalaDe_marcas_length _, ?_, ?_,
    fun i hi => escalaDe_marcas_getElem _ hi, escalaDe_marcas_sorted _,
    fun t ht => escalaDe_marcas_bounds _ ht⟩
  · rw [escalaDeValores, escalaDe_marcas_getElem _ (by norm_num : (0 : ℕ) < 11)]
    have hproj : (escalaDe ((values.map (Real.logb 10)))).min_val =
        listMin (values.map (Real.logb 10)) := rfl
    rw [hproj]
    congr 1
    push_cast
    ring
  · rw [escalaDeValores, escalaDe_marcas_getElem _ (by norm_num : (10 : ℕ) < 11)]
    have hproj : (escalaDe ((values.map (Real.logb 10)))).max_val =
        listMax (values.map (Real.logb 10)) := rfl
    rw [hproj]
    congr 1
    push_cast
    ring

/-- C2 witness: the scale theorem applied to the concrete positive
input `[1, 100]`. -/
theorem escala_logaritmica_testigo :
    (([1, 100] : List ℝ) ≠ [] ∧ ∀ x ∈ ([1, 100] : List ℝ), 0 < x) ∧
    (escalaDeValores [1, 100]).min_val = Real.logb 10 (listMin [1, 100]) ∧
    (escalaDeValores [1, 100]).marcas.length = 11 ∧
    (escalaDeValores [1, 100]).marcas.Sorted (· ≤ ·) := by
  have hne : ([1, 100] : List ℝ) ≠ [] := by simp
  have hpos : ∀ x ∈ ([1, 100] : List ℝ), 0 < x := by
    intro x hx
    rcases List.mem_cons.mp hx with rfl | hx2
    · norm_num
    · rcases List.mem_cons.mp hx2 with rfl | hx3
      · norm_num
      · simp at hx3
  have h := escala_logaritmica [1, 100] hne hpos
  exact ⟨⟨hne, hpos⟩, h.1, h.2.2.1, h.2.2.2.2.2.2.1⟩

/-- C7 counterexample: on the all-identical strictly positive input
`[5, 5]` the domain collapses (`min_val = max_val`) and the 11
ticks are all equal, so the tick sequence is not strictly
increasing — refuting the claim that every constructed scale,
including those from all-identical inputs, has strictly increasing
ticks. -/
theorem escala_identicos_no_estricta :
    (0 : ℝ) < 5 ∧
    ¬ (escalaDeValores [5, 5]).marcas.Sorted (· < ·) := by
  constructor
  · norm_num
  · intro h
    rw [List.Sorted, List.pairwise_iff_getElem] at h
    have hlen : (escalaDeValores [5, 5]).marcas.length = 11 :=
      escalaDe_marcas_length _
    have h01 := h 0 1 (by rw [hlen]; norm_num) (by rw [hlen]; norm_num) (by norm_num)
    simp only [escalaDeValores, escalaDe, List.map_cons, List.map_nil, listMin, listMax,
      min_self, max_self, List.getElem_map, List.getElem_range, sub_self, Nat.cast_zero,
      Nat.cast_one, zero_mul, one_mul, zero_div, add_zero, mul_zero] at h01
    exact lt_irrefl _ h01

/-- C7 amended: every constructed scale satisfies the invariant
`min_val ≤ tick ≤ max_val` with the tick sequence non-decreasing;
the ticks are strictly increasing exactly when the input is not
all-identical (minimum < maximum) — when all values coincide the 11
ticks collapse to one repeated value, a valid but degenerate
scale. -/
theorem escala_invariante (values : List ℝ) (hne : values ≠ [])
    (hpos : ∀ x ∈ values, 0 < x) :
    (∀ t ∈ (escalaDeValores values).marcas,
      (escalaDeValores values).min_val ≤ t ∧ t ≤ (escalaDeValores values).max_val) ∧
    (escalaDeValores values).marcas.Sorted (· ≤ ·) ∧
    (listMin values < listMax values →
      (escalaDeValores values).marcas.Sorted (· < ·)) := by
  refine ⟨fun t ht => escalaDe_marcas_bounds _ ht, escalaDe_marcas_sorted _,
    fun hlt => ?_⟩
  have h1 : 0 < listMin values := hpos _ (listMin_mem hne)
  have h2 := @Real.logb_lt_logb 10 (listMin values) (listMax values) (by norm_num) h1 hlt
  rw [logb_listMin hne hpos, logb_listMax hne hpos] at h2
  exact escalaDe_marcas_sorted_lt _ h2

/-- C7 witness: the invariant theorem applied to `[1, 100]`, whose
distinct endpoints give strictly increasing ticks. -/
theorem escala_invariante_testigo :
    (([1, 100] : List ℝ) ≠ [] ∧ (∀ x ∈ ([1, 100] : List ℝ), 0 < x) ∧
      listMin ([1, 100] : List ℝ) < listMax ([1, 100] : List ℝ)) ∧
    (escalaDeValores [1, 100]).marcas.Sorted (· < ·) := by
  have hne : ([1, 100] : List ℝ) ≠ [] := by simp
  have hpos : ∀ x ∈ ([1, 100] : List ℝ), 0 < x := by
    intro x hx
    rcases List.mem_cons.mp hx with rfl | hx2
    · norm_num
    · rcases List.mem_cons.mp hx2 with rfl | hx3
      · norm_num
      · simp at hx3
  have hlt : listMin ([1, 100] : List ℝ) < listMax ([1, 100] : List ℝ) := by
    simp only [listMin, listMax]
    norm_num [min_def, max_def]
  have h := escala_invariante [1, 100] hne hpos
  exact ⟨⟨hne, hpos, hlt⟩, h.2.2 hlt⟩

theorem filter_clave_no_mem {l : List (String × ℚ)} {k : String}
    (h : k ∉ l.map Prod.fst) : l.filter (fun p => p.1 == k) = [] := by
  rw [List.filter_eq_nil_iff]
  intro p hp
  simp only [beq_iff_eq]
  intro hEq
  exact h (hEq ▸ List.mem_map_of_mem Prod.fst hp)

theorem mapa_sumas_eq : ∀ renglones : List (String × ℚ),
    (renglones.map Prod.fst).Nodup →
    (renglones.map Prod.fst).map
      (fun k => (k, ((renglones.filter (fun p => p.1 == k)).map Prod.snd).sum)) =
      renglones
  | [], _ => rfl
  | (k, v) :: resto, hnd => by
      simp only [List.map_cons, List.nodup_cons] at hnd
      obtain ⟨hk, hnd2⟩ := hnd
      have hfil : resto.filter (fun p => p.1 == k) = [] := filter_clave_no_mem hk
      simp only [List.map_cons]
      rw [List.filter_cons_of_pos (by simp), hfil]
      refine congrArg₂ _ (by simp) ?_
      have htail : (resto.map Prod.fst).map
          (fun k2 => (k2,
            ((((k, v) :: resto).filter (fun p => p.1 == k2)).map Prod.snd).sum)) =
          (resto.map Prod.fst).map
          (fun k2 => (k2, ((resto.filter (fun p => p.1 == k2)).map Prod.snd).sum)) := by
        apply List.map_congr_left
        intro k2 hk2
        have hne : ¬ ((k, v).1 == k2) = true := by
          simp only [beq_iff_eq]
          intro hEq
          exact hk (hEq ▸ hk2)
        rw [List.filter_cons_of_neg (by simpa using hne)]
      rw [htail, mapa_sumas_eq resto hnd2]

theorem groupbySum_fijo (renglones : List (String × ℚ))
    (hnd : (renglones.map Prod.fst).Nodup)
    (hs : (renglones.map Prod.fst).Sorted (· ≤ ·)) :
    groupbySum renglones = renglones := by
  rw [groupbySum, List.dedup_eq_self.mpr hnd, hs.insertionSort_eq]
  exact mapa_sumas_eq renglones hnd

theorem groupbySum_llaves (renglones : List (String × ℚ)) :
    (groupbySum renglones).map Prod.fst =
      List.insertionSort (fun a b => a ≤ b) (renglones.map Prod.fst).dedup := by
  simp [groupbySum, List.map_map, Function.comp_def]

/-- C9 counterexample: a dataset with exactly one row per key whose
rows are not in ascending key order — sum-mode re-aggregation
returns the rows sorted by key (as pandas `groupby` does), which is
not the identical dataset. -/
theorem suma_reagrupacion_contra :
    (([("B", 7), ("A", 9)] : List (String × ℚ)).map Prod.fst).Nodup ∧
    groupbySum [("B", 7), ("A", 9)] ≠ [("B", 7), ("A", 9)] := by
  constructor
  · decide
  · have hBA : ¬ (("B" : String) ≤ "A") := by
      rw [String.le_iff_toList_le]
      decide
    simp only [groupbySum, List.map_cons, List.map_nil, List.dedup_cons_of_not_mem,
      List.dedup_cons_of_mem, List.mem_cons, List.mem_singleton, List.dedup_nil,
      List.insertionSort, List.orderedInsert, if_neg hBA, List.filter, List.sum_cons,
      List.sum_nil, add_zero]
    intro h
    have h2 := List.head_eq_of_cons_eq h
    simp at h2

/-- C9 amended: sum-mode aggregation is idempotent — re-aggregating
the output of a sum-mode aggregation by the same key is the
identity; and a one-row-per-key dataset is a fixpoint exactly when
its rows are already in ascending key order (pandas `groupby` sorts
the group keys, so in general re-aggregation returns the dataset
re-sorted by key). -/
theorem suma_reagrupacion (renglones : List (String × ℚ)) :
    groupbySum (groupbySum renglones) = groupbySum renglones ∧
    ((renglones.map Prod.fst).Nodup → (renglones.map Prod.fst).Sorted (· ≤ ·) →
      groupbySum renglones = renglones) := by
  constructor
  · apply groupbySum_fijo
    · rw [groupbySum_llaves]
      exact ((List.perm_insertionSort _ _).nodup_iff).mpr (List.nodup_dedup _)
    · rw [groupbySum_llaves]
      exact List.sorted_insertionSort _ _
  · exact fun hnd hs => groupbySum_fijo renglones hnd hs

/-- C9 witness: the fixpoint part applied to the key-sorted
one-row-per-key dataset `[("A", 9), ("B", 7)]`. -/
theorem suma_reagrupacion_testigo :
    ((([("A", 9), ("B", 7)] : List (String × ℚ)).map Prod.fst).Nodup ∧
      (([("A", 9), ("B", 7)] : List (String × ℚ)).map Prod.fst).Sorted (· ≤ ·)) ∧
    groupbySum [("A", 9), ("B", 7)] = [("A", 9), ("B", 7)] := by
  have hAB : ("A" : String) ≤ "B" := by
    rw [String.le_iff_toList_le]
    decide
  have hnd : (([("A", 9), ("B", 7)] : List (String × ℚ)).map Prod.fst).Nodup := by
    decide
  have hs : (([("A", 9), ("B", 7)] : List (String × ℚ)).map Prod.fst).Sorted (· ≤ ·) := by
    simp only [List.map_cons, List.map_nil]
    refine List.sorted_cons.mpr ⟨?_, List.sorted_singleton _⟩
    intro b hb
    rw [List.mem_singleton.mp hb]
    exact hAB
  exact ⟨⟨hnd, hs⟩, (suma_reagrupacion _).2 hnd hs⟩

/-- C10: in the municipal pipeline every key whose aggregated volume
is 0 is filtered out before the logarithm, so for any input whose
raw volumes are non-negative every value reaching `np.log10` is
strictly positive and its base-10 logarithm is a genuine logarithm:
`10 ^ log10 v = v` (finite, well-defined). -/
theorem municipal_log_seguro (renglones : List (String × ℚ))
    (h : ∀ p ∈ renglones, 0 ≤ p.2) :
    ∀ p ∈ municipioVolumenes renglones, 0 < p.2 ∧
      (10 : ℝ) ^ Real.logb 10 ((p.2 : ℚ) : ℝ) = ((p.2 : ℚ) : ℝ) := by
  intro p hp
  rw [municipioVolumenes, List.mem_filter] at hp
  obtain ⟨hpg, hpne⟩ := hp
  have hne : p.2 ≠ 0 := by simpa using hpne
  have hnonneg : 0 ≤ p.2 := by
    rw [groupbySum] at hpg
    obtain ⟨k, hk, rfl⟩ := List.mem_map.mp hpg
    apply List.sum_nonneg
    intro x hx
    obtain ⟨q, hq, rfl⟩ := List.mem_map.mp hx
    exact h q (List.mem_of_mem_filter hq)
  have hpos : 0 < p.2 := lt_of_le_of_ne hnonneg (Ne.symm hne)
  refine ⟨hpos, ?_⟩
  rw [Real.rpow_logb (by norm_num) (by norm_num) (by exact_mod_cast hpos)]

/-- C10 witness: the positivity theorem applied to rows containing a
zero-volume municipality and a municipality whose rows sum to a
positive volume. -/
theorem municipal_log_seguro_testigo :
    (∀ p ∈ ([("01001", 5), ("01001", 0), ("02002", 0)] : List (String × ℚ)), 0 ≤ p.2) ∧
    ∀ p ∈ municipioVolumenes [("01001", 5), ("01001", 0), ("02002", 0)], 0 < p.2 ∧
      (10 : ℝ) ^ Real.logb 10 ((p.2 : ℚ) : ℝ) = ((p.2 : ℚ) : ℝ) :=
  ⟨by decide, municipal_log_seguro _ (by decide)⟩

theorem groupbyMax_llaves (renglones : List RenglonExportacion) :
    (groupbyMax renglones).map Prod.fst =
      List.insertionSort (fun a b => a ≤ b) (renglones.map llaveDestino).dedup := by
  simp [groupbyMax, List.map_map, Function.comp_def]

/-- C8: in max-mode aggregation of the export dataset, a row with a
missing country key is first given the sentinel key `"TOTAL"` and is
not dropped (its key appears among the output keys); every output
entry's numeric cells are attained maxima of the corresponding
column over the rows sharing the key (attained by some row, and an
upper bound of all of them, independently per column); and the
concrete group with `CANTIDAD` rows `[5, 12, 3]` aggregates to
`12`. -/
theorem exportaciones_max_por_pais (renglones : List RenglonExportacion) :
    (∀ r ∈ renglones, r.pais = none → llaveDestino r = "TOTAL") ∧
    (∀ r ∈ renglones, llaveDestino r ∈ (groupbyMax renglones).map Prod.fst) ∧
    (∀ k c v, (k, c, v) ∈ groupbyMax renglones →
      ((∃ r ∈ renglones, llaveDestino r = k ∧ r.cantidad = c) ∧
        (∃ r ∈ renglones, llaveDestino r = k ∧ r.val_mnx = v) ∧
        ∀ r ∈ renglones, llaveDestino r = k → r.cantidad ≤ c ∧ r.val_mnx ≤ v)) ∧
    groupbyMax [⟨some "X", 5, 50⟩, ⟨some "X", 12, 30⟩, ⟨some "X", 3, 40⟩] =
      [("X", 12, 50)] := by
  refine ⟨?_, ?_, ?_, ?_⟩
  · intro r _ hnone
    simp [llaveDestino, hnone]
  · intro r hr
    rw [groupbyMax_llaves, List.mem_insertionSort, List.mem_dedup]
    exact List.mem_map_of_mem llaveDestino hr
  · intro k c v hkcv
    obtain ⟨k2, hk2, heq⟩ := List.mem_map.mp hkcv
    rw [Prod.mk.injEq, Prod.mk.injEq] at heq
    obtain ⟨h1, h2, h3⟩ := heq
    subst h1
    subst h2
    subst h3
    have hk3 : k2 ∈ renglones.map llaveDestino := by
      rw [List.mem_insertionSort, List.mem_dedup] at hk2
      exact hk2
    obtain ⟨r0, hr0, hr0k⟩ := List.mem_map.mp hk3
    have hr0grp : r0 ∈ renglones.filter (fun r => llaveDestino r == k2) :=
      List.mem_filter.mpr ⟨hr0, by simp [hr0k]⟩
    have hgrne : (renglones.filter (fun r => llaveDestino r == k2)) ≠ [] :=
      List.ne_nil_of_mem hr0grp
    refine ⟨?_, ?_, ?_⟩
    · have hmem := listMax_mem (l := (renglones.filter
        (fun r => llaveDestino r == k2)).map RenglonExportacion.cantidad)
        (by simpa using hgrne)
      obtain ⟨r1, hr1, hr1c⟩ := List.mem_map.mp hmem
      rw [List.mem_filter] at hr1
      exact ⟨r1, hr1.1, by simpa using hr1.2, hr1c⟩
    · have hmem := listMax_mem (l := (renglones.filter
        (fun r => llaveDestino r == k2)).map RenglonExportacion.val_mnx)
        (by simpa using hgrne)
      obtain ⟨r1, hr1, hr1v⟩ := List.mem_map.mp hmem
      rw [List.mem_filter] at hr1
      exact ⟨r1, hr1.1, by simpa using hr1.2, hr1v⟩
    · intro r hr hrk
      constructor
      · exact le_listMax (List.mem_map_of_mem _
          (List.mem_filter.mpr ⟨hr, by simp [hrk]⟩))
      · exact le_listMax (List.mem_map_of_mem _
          (List.mem_filter.mpr ⟨hr, by simp [hrk]⟩))
  · rw [groupbyMax]
    rw [show List.map llaveDestino [⟨some "X", 5, 50⟩, ⟨some "X", 12, 30⟩,
        ⟨some "X", 3, 40⟩] = ["X", "X", "X"] from by decide]
    rw [show (["X", "X", "X"] : List String).dedup = ["X"] from by decide]
    rw [show List.insertionSort (fun a b : String => a ≤ b) ["X"] = ["X"] from rfl]
    simp only [List.map_cons, List.map_nil]
    rw [show List.filter (fun r => llaveDestino r == "X")
        ([⟨some "X", 5, 50⟩, ⟨some "X", 12, 30⟩, ⟨some "X", 3, 40⟩] :
          List RenglonExportacion) =
        [⟨some "X", 5, 50⟩, ⟨some "X", 12, 30⟩, ⟨some "X", 3, 40⟩] from by decide]
    rw [show List.map RenglonExportacion.cantidad
        ([⟨some "X", 5, 50⟩, ⟨some "X", 12, 30⟩, ⟨some "X", 3, 40⟩] :
          List RenglonExportacion) = [(5 : ℚ), 12, 3] from by decide]
    rw [show List.map RenglonExportacion.val_mnx
        ([⟨some "X", 5, 50⟩, ⟨some "X", 12, 30⟩, ⟨some "X", 3, 40⟩] :
          List RenglonExportacion) = [(50 : ℚ), 30, 40] from by decide]
    rw [show listMax [(5 : ℚ), 12, 3] = 12 from by
      simp only [listMax]
      rw [max_eq_left (by norm_num : (3 : ℚ) ≤ 12),
        max_eq_right (by norm_num : (5 : ℚ) ≤ 12)]]
    rw [show listMax [(50 : ℚ), 30, 40] = 50 from by
      simp only [listMax]
      rw [max_eq_right (by norm_num : (30 : ℚ) ≤ 40),
        max_eq_left (by norm_num : (40 : ℚ) ≤ 50)]]

/-- C8 witness: the max-aggregation theorem applied to a single row
with a missing country key, which survives under the sentinel key. -/
theorem exportaciones_max_testigo :
    llaveDestino ⟨none, 3, 4⟩ = "TOTAL" ∧
    "TOTAL" ∈ (groupbyMax [⟨none, 3, 4⟩]).map Prod.fst := by
  have h := exportaciones_max_por_pais [⟨none, 3, 4⟩]
  have hmem : (⟨none, 3, 4⟩ : RenglonExportacion) ∈
      ([⟨none, 3, 4⟩] : List RenglonExportacion) := List.mem_singleton.mpr rfl
  have hllave := h.1 _ hmem rfl
  have h2 := h.2.1 _ hmem
  rw [hllave] at h2
  exact ⟨hllave, h2⟩

end Aguacate
